import Mathlib

/-!
Verification of the LBA (Logical Block Address) metadata cache of zero-os/0-Disk,
package `nbdserver/lba` (file `lba.go`), against its natural-language specification.

The embedding below is shallow: the Go functions of `lba.go` are translated into
pure Lean functions.  External effects (acquiring a metadata connection, the
replies of the HGET/HSET/HDEL/MULTI/EXEC commands) are passed in as explicit
environment arguments, and the commands sent on the connection are returned as an
explicit command trace.  Lock acquisition/release and cache operations performed
by `Set`/`Get` are likewise recorded in an event trace, so that the lock-ordering
of the source can be stated and checked.

Go `int64` arithmetic is modelled with `Int.tdiv`/`Int.tmod`, which round toward
zero exactly as Go's `/` and `%` do.

The files `shard.go` and `shard_cache.go` of the package are not part of the
sources at hand (only `lba.go` is); every definition that stands in for them is
marked `Modelled from the spec:` in its doc comment and follows the
specification's description of the Shard and ShardCache components.
-/

namespace ZeroDiskLBA

/-- Error kinds of the LBA layer, following the spec's error taxonomy
(InvalidProvider, Unavailable, CorruptShard); `ioErr` stands for an arbitrary
error produced by the external store or the connection. -/
inductive Err where
  | invalidProvider
  | unavailable
  | corruptShard
  | ioErr (code : Nat)
deriving DecidableEq

/-- A content hash: an opaque byte string (bytes as naturals). -/
abbrev Hash := List Nat

/-- NumberOfRecordsPerLBAShard is the fixed length of the LBAShards
(source constant, value 128). -/
def NumberOfRecordsPerLBAShard : Nat := 128

/-- Modelled from the spec: the distinguished all-zero NilHash of width `hlen`
(shard.go / the Hash type are not in the sources at hand). -/
def nilHash (hlen : Nat) : Hash := List.replicate hlen 0

/-- Modelled from the spec: `IsNil(h)` is true iff `h` is byte-equal to NilHash
or is the empty/absent value. -/
def Hash.isNil (hlen : Nat) (h : Hash) : Prop := h = [] ∨ h = nilHash hlen

/-- Modelled from the spec: the Shard of `shard.go` (not in the sources at
hand): a dense array of `NumberOfRecordsPerLBAShard` Hash slots plus a dirty
bit. -/
structure Shard where
  records : List Hash
  dirty : Bool
deriving DecidableEq

/-- Modelled from the spec: a well-formed shard for hash width `hlen` has
exactly `NumberOfRecordsPerLBAShard` records, each of width `hlen`. -/
def Shard.WF (hlen : Nat) (s : Shard) : Prop :=
  s.records.length = NumberOfRecordsPerLBAShard ∧ ∀ r ∈ s.records, r.length = hlen

/-- Modelled from the spec: `newShard()` creates a shard whose slots are all
NilHash, not dirty. -/
def newShard (hlen : Nat) : Shard :=
  ⟨List.replicate NumberOfRecordsPerLBAShard (nilHash hlen), false⟩

/-- Modelled from the spec: `shard.Get(i)` returns the hash in slot `i`
(NilHash for unset slots; all slots are materialized). -/
def Shard.get (s : Shard) (hlen : Nat) (i : Int) : Hash :=
  s.records.getD i.toNat (nilHash hlen)

/-- Modelled from the spec: `shard.Set(i, h)` writes slot `i` and marks the
shard dirty. -/
def Shard.set (s : Shard) (i : Int) (h : Hash) : Shard :=
  ⟨s.records.set i.toNat h, true⟩

/-- Modelled from the spec: `shard.UnsetDirty()` clears the dirty bit. -/
def Shard.unsetDirty (s : Shard) : Shard :=
  ⟨s.records, false⟩

/-- Modelled from the spec: `shard.Write(sink)` serializes the shard as its
records concatenated, with no length prefix or header. -/
def shardWrite (s : Shard) : List Nat := s.records.flatten

/-- Splits a byte string into `n` consecutive chunks of `hlen` bytes each
(helper for deserialization). -/
def chunksOf (hlen : Nat) : Nat → List Nat → List (List Nat)
  | 0, _ => []
  | Nat.succ n, b => b.take hlen :: chunksOf hlen n (b.drop hlen)

/-- Modelled from the spec: `shardFromBytes(buf)` deserializes a buffer whose
length must equal `R*hlen`; returns a non-dirty shard, and fails with
CorruptShard if the length differs. -/
def shardFromBytes (hlen : Nat) (b : List Nat) : Except Err Shard :=
  if b.length = NumberOfRecordsPerLBAShard * hlen then
    .ok ⟨chunksOf hlen NumberOfRecordsPerLBAShard b, false⟩
  else
    .error .corruptShard

/-- A cache entry: a live shard, or a tombstone (`none`, the nil-shard sentinel
meaning "user deleted this shard"). -/
abbrev CacheEntry := Option Shard

/-- Modelled from the spec: the ShardCache content, keyed by shard index, at
most one entry per index (`shard_cache.go` is not in the sources at hand; the
byte-limit/LRU-eviction machinery is not modelled because no verified statement
quantifies over it). -/
abbrev Cache := List (Int × CacheEntry)

/-- Modelled from the spec: `cache.Get(index)`; `none` means no entry, and a
present tombstone entry is `some none` (a tombstone hit reads as an absent
shard at the LBA layer while the tombstone stays cached). -/
def cacheGet (c : Cache) (i : Int) : Option CacheEntry :=
  List.lookup i c

/-- Modelled from the spec: `cache.Add(index, entry)` inserts or replaces the
entry of that index. -/
def cacheAdd (c : Cache) (i : Int) (e : CacheEntry) : Cache :=
  if (List.lookup i c).isSome then
    c.map (fun p => if p.1 = i then (i, e) else p)
  else
    (i, e) :: c

/-- Modelled from the spec: `cache.Serialize(emit)` visits every entry and
yields, for each dirty entry, its index together with the serialized shard
bytes, or `none` for a tombstone (tombstones are dirty for flush purposes);
non-dirty live shards are skipped. -/
def serializeEntries (c : Cache) : List (Int × Option (List Nat)) :=
  c.filterMap fun p =>
    match p.2 with
    | none => some (p.1, none)
    | some s => if s.dirty = true then some (p.1, some (shardWrite s)) else none

/-- Events recording what the LBA operations of `lba.go` do, in order:
lock/unlock of `shardMux[si]`, cache lookup/insert, the external HGET
(GetField), and the `shard.Set` mutation. -/
inductive Ev where
  | lock (si : Int)
  | unlock (si : Int)
  | cacheLookup (si : Int)
  | cacheAdd (si : Int)
  | extGetField (si : Int)
  | shardSet (si : Int) (hi : Int)
deriving DecidableEq

/-- Commands sent on the metadata connection. -/
inductive Cmd where
  | multi
  | exec
  | hset (key : String) (field : Int) (value : List Nat)
  | hdel (key : String) (field : Int)
deriving DecidableEq

/-- The LBA state produced by `NewLBA` (lba.go): volume id, the number of
allocated per-shard mutexes, the cache byte limit handed to the cache, and the
(initially empty) cache content. -/
structure LbaState where
  volumeID : String
  muxCount : Int
  cacheByteLimit : Int
  cache : Cache
deriving DecidableEq

/-- NewLBA (lba.go lines 20-39): fails when the provider is nil; otherwise
computes `muxCount = blockCount / 128`, incremented when `blockCount % 128 > 0`
(Go `int64` division/modulus, hence `Int.tdiv`/`Int.tmod`), and creates the
shard cache with the given byte limit.  The cache construction (`newShardCache`,
not in the sources at hand) is modelled from the spec as total: the capacity is
min-capped to one entry and no failure mode is specified for it. -/
def NewLBA (volumeID : String) (blockCount cacheLimitInBytes : Int)
    (providerPresent : Bool) : Except Err LbaState :=
  if providerPresent = false then
    .error .invalidProvider
  else
    let mc0 := Int.tdiv blockCount (NumberOfRecordsPerLBAShard : Int)
    let mc := if Int.tmod blockCount (NumberOfRecordsPerLBAShard : Int) > 0 then mc0 + 1 else mc0
    .ok ⟨volumeID, mc, cacheLimitInBytes, []⟩

/-- getShardFromExternalStorage (lba.go lines 168-186): acquire a connection
(`acquireErr` is its outcome), issue HGET (`hgetRes` is the reply: an error, an
absent reply, or bytes); an error is propagated, an absent reply yields an
absent shard with no error, and bytes are deserialized (CorruptShard on bad
length).  The returned event list records whether the external GetField was
actually issued. -/
def getShardFromExternalStorage (hlen : Nat) (acquireErr : Option Err)
    (hgetRes : Except Err (Option (List Nat))) (index : Int) :
    Except Err (Option Shard) × List Ev :=
  match acquireErr with
  | some e => (.error e, [])
  | none =>
    match hgetRes with
    | .error e => (.error e, [Ev.extGetField index])
    | .ok none => (.ok none, [Ev.extGetField index])
    | .ok (some bs) =>
      match shardFromBytes hlen bs with
      | .error e => (.error e, [Ev.extGetField index])
      | .ok s => (.ok (some s), [Ev.extGetField index])

/-- getShard (lba.go lines 128-142): look the shard up in the cache; on a miss
fetch it from the external store, and add it to the cache only when the fetch
produced a shard (an absent shard is not cached). -/
def getShard (hlen : Nat) (c : Cache) (acquireErr : Option Err)
    (hgetRes : Except Err (Option (List Nat))) (index : Int) :
    Except Err (Option Shard) × Cache × List Ev :=
  match cacheGet c index with
  | some entry => (.ok entry, c, [Ev.cacheLookup index])
  | none =>
    match getShardFromExternalStorage hlen acquireErr hgetRes index with
    | (.error e, fevs) => (.error e, c, Ev.cacheLookup index :: fevs)
    | (.ok none, fevs) => (.ok none, c, Ev.cacheLookup index :: fevs)
    | (.ok (some s), fevs) =>
      (.ok (some s), cacheAdd c index (some s),
        Ev.cacheLookup index :: fevs ++ [Ev.cacheAdd index])

/-- Set (lba.go lines 61-90): inside a locked closure, fetch the shard of
`blockIndex / 128` (creating and caching a fresh one when absent); the closure's
deferred unlock fires when it returns, and only then does the code run
`shard.Set(blockIndex % 128, h)` on the shard pointer it received (the cache
entry, aliased by that pointer, takes the mutated shard). -/
def setOp (hlen : Nat) (c : Cache) (acquireErr : Option Err)
    (hgetRes : Except Err (Option (List Nat))) (blockIndex : Int) (h : Hash) :
    Option Err × Cache × List Ev :=
  let si := Int.tdiv blockIndex (NumberOfRecordsPerLBAShard : Int)
  let hi := Int.tmod blockIndex (NumberOfRecordsPerLBAShard : Int)
  match getShard hlen c acquireErr hgetRes si with
  | (.error e, c1, evs) => (some e, c1, Ev.lock si :: evs ++ [Ev.unlock si])
  | (.ok entry, c1, evs) =>
    let s := entry.getD (newShard hlen)
    let c2 := if entry.isNone then cacheAdd c1 si (some s) else c1
    let evs2 := evs ++ (if entry.isNone then [Ev.cacheAdd si] else [])
    (none, cacheAdd c2 si (some (s.set hi h)),
      Ev.lock si :: evs2 ++ [Ev.unlock si, Ev.shardSet si hi])

/-- Get (lba.go lines 103-120): inside a locked closure, fetch the shard of
`blockIndex / 128`; an absent shard yields the zero-value hash (Go nil) with no
error, a present one yields `shard.Get(blockIndex % 128)` after the closure
returned. -/
def getOp (hlen : Nat) (c : Cache) (acquireErr : Option Err)
    (hgetRes : Except Err (Option (List Nat))) (blockIndex : Int) :
    Except Err Hash × Cache × List Ev :=
  let si := Int.tdiv blockIndex (NumberOfRecordsPerLBAShard : Int)
  let hi := Int.tmod blockIndex (NumberOfRecordsPerLBAShard : Int)
  match getShard hlen c acquireErr hgetRes si with
  | (.error e, c1, evs) => (.error e, c1, Ev.lock si :: evs ++ [Ev.unlock si])
  | (.ok none, c1, evs) => (.ok [], c1, Ev.lock si :: evs ++ [Ev.unlock si])
  | (.ok (some s), c1, evs) =>
    (.ok (s.get hlen hi), c1, Ev.lock si :: evs ++ [Ev.unlock si])

/-- The emitter closure passed by `storeCacheInExternalStorage` to
`cache.Serialize` (lba.go lines 199-206): non-nil bytes are sent as
`HSET volumeID index bytes`, nil bytes as `HDEL volumeID index`. -/
def emitCmd (volumeID : String) (p : Int × Option (List Nat)) : Cmd :=
  match p.2 with
  | some b => Cmd.hset volumeID p.1 b
  | none => Cmd.hdel volumeID p.1

/-- Environment of one Flush: the outcome of acquiring the connection, of
sending MULTI, and the reply and error of `Do("EXEC")` (the source discards the
reply value and looks only at the error). -/
structure FlushEnv where
  acquireErr : Option Err
  multiErr : Option Err
  execReply : Option (List Nat)
  execErr : Option Err
deriving DecidableEq

/-- storeCacheInExternalStorage (lba.go lines 188-217), the body of Flush: on
one connection send MULTI, emit one HSET/HDEL per serialized cache entry, then
run EXEC.  The source then clears the cache (with `evict := false`) exactly when
EXEC returned an error, leaves it untouched otherwise, and returns the EXEC
error. -/
def storeCacheInExternalStorage (volumeID : String) (c : Cache) (env : FlushEnv) :
    Option Err × Cache × List Cmd :=
  match env.acquireErr with
  | some e => (some e, c, [])
  | none =>
    match env.multiErr with
    | some e => (some e, c, [])
    | none =>
      let cmds := Cmd.multi :: (serializeEntries c).map (emitCmd volumeID) ++ [Cmd.exec]
      match env.execErr with
      | some e => (some e, [], cmds)
      | none => (none, c, cmds)

/-- storeShardInExternalStorage (lba.go lines 219-242): a non-dirty shard is
not stored; a dirty one is serialized and written with one HSET, and the source
runs `shard.UnsetDirty()` exactly when the HSET returned an error (`err != nil`),
leaving the dirty bit set on success.  The HSET error is returned either way. -/
def storeShardInExternalStorage (volumeID : String) (index : Int) (s : Shard)
    (acquireErr hsetErr : Option Err) : Shard × Option Err × List Cmd :=
  if s.dirty = false then
    (s, none, [])
  else
    match acquireErr with
    | some e => (s, some e, [])
    | none =>
      match hsetErr with
      | some e => (s.unsetDirty, some e, [Cmd.hset volumeID index (shardWrite s)])
      | none => (s, none, [Cmd.hset volumeID index (shardWrite s)])

/-- deleteShardFromExternalStorage (lba.go lines 244-254): issue one HDEL for
the shard index and return its error. -/
def deleteShardFromExternalStorage (volumeID : String) (index : Int)
    (acquireErr hdelErr : Option Err) : Option Err × List Cmd :=
  match acquireErr with
  | some e => (some e, [])
  | none => (hdelErr, [Cmd.hdel volumeID index])

/-- Outcome of one eviction-callback invocation. -/
inductive EvictOutcome where
  | nilDeref
  | noop
  | completed
deriving DecidableEq

/-- onCacheEviction (lba.go lines 147-166): the callback first evaluates
`!shard.Dirty()`.  `Dirty` is a pointer-receiver field read (spec, Shard
operations), so on a tombstone entry (nil shard pointer) this dereferences nil
and panics — modelled as `EvictOutcome.nilDeref` — before the function's own
`shard != nil` test is reached; the HDEL branch for tombstones is therefore
unreachable.  For a live non-dirty shard the callback is a no-op; for a live
dirty shard it stores the shard externally and only logs the error (nothing is
propagated). -/
def onCacheEviction (volumeID : String) (index : Int) (entry : Option Shard)
    (acquireErr hsetErr : Option Err) : EvictOutcome × Option Shard × List Cmd :=
  match entry with
  | none => (.nilDeref, none, [])
  | some s =>
    if s.dirty = false then
      (.noop, some s, [])
    else
      match storeShardInExternalStorage volumeID index s acquireErr hsetErr with
      | (s1, _, cmds) => (.completed, some s1, cmds)

section Lemmas

/-- Splitting the concatenation of equal-width chunks recovers the chunks. -/
theorem chunksOf_flatten (hlen : Nat) (l : List (List Nat))
    (hl : ∀ r ∈ l, r.length = hlen) : chunksOf hlen l.length l.flatten = l := by
  induction l with
  | nil => rfl
  | cons r t ih =>
    have hr : r.length = hlen := hl r (List.mem_cons_self r t)
    have h1 : List.take hlen (r ++ t.flatten) = r := by
      rw [← hr]; exact List.take_left r t.flatten
    have h2 : List.drop hlen (r ++ t.flatten) = t.flatten := by
      rw [← hr]; exact List.drop_left r t.flatten
    simp only [List.length_cons, List.flatten_cons, chunksOf]
    rw [h1, h2, ih (fun x hx => hl x (List.mem_cons_of_mem r hx))]

/-- The flattened length of a list of equal-width chunks. -/
theorem flatten_length_of_widths (hlen : Nat) (l : List (List Nat))
    (hl : ∀ r ∈ l, r.length = hlen) : l.flatten.length = l.length * hlen := by
  induction l with
  | nil => simp
  | cons r t ih =>
    have hr : r.length = hlen := hl r (List.mem_cons_self r t)
    simp only [List.flatten_cons, List.length_append, List.length_cons,
      ih (fun x hx => hl x (List.mem_cons_of_mem r hx)), hr]
    ring

/-- Incrementing a truncated quotient on a positive remainder is the ceiling
(for nonnegative operands). -/
theorem tdiv_bump_eq_ceil (bc : Int) (hbc : 0 ≤ bc) :
    (if Int.tmod bc 128 > 0 then Int.tdiv bc 128 + 1 else Int.tdiv bc 128) =
      Int.tdiv (bc + 127) 128 := by
  rw [Int.tdiv_eq_ediv hbc (by norm_num), Int.tdiv_eq_ediv (by omega) (by norm_num),
    Int.tmod_eq_emod hbc (by norm_num)]
  split <;> omega

end Lemmas

/-- C8: for every well-formed Shard `s`, serialization produces exactly
`R*hlen` bytes (R concatenated `hlen`-byte hashes) and deserializing them
yields the same shard record-for-record with the dirty bit cleared:
`shardFromBytes hlen (shardWrite s) = ok ⟨s.records, false⟩`. -/
theorem shard_write_roundtrip (hlen : Nat) (s : Shard) (hWF : s.WF hlen) :
    (shardWrite s).length = NumberOfRecordsPerLBAShard * hlen ∧
    shardFromBytes hlen (shardWrite s) = .ok ⟨s.records, false⟩ := by
  obtain ⟨hR, hH⟩ := hWF
  have hlenEq : (shardWrite s).length = NumberOfRecordsPerLBAShard * hlen := by
    unfold shardWrite
    rw [flatten_length_of_widths hlen s.records hH, hR]
  refine ⟨hlenEq, ?_⟩
  unfold shardFromBytes
  rw [if_pos hlenEq]
  unfold shardWrite
  rw [← hR, chunksOf_flatten hlen s.records hH]

/-- C8 witness: the round-trip at a concrete 128-record shard of 1-byte
hashes. -/
theorem shard_write_roundtrip_witness :
    (⟨List.replicate 128 [5], true⟩ : Shard).WF 1 ∧
    shardFromBytes 1 (shardWrite ⟨List.replicate 128 [5], true⟩) =
      .ok ⟨(⟨List.replicate 128 [5], true⟩ : Shard).records, false⟩ := by
  have hWF : (⟨List.replicate 128 [5], true⟩ : Shard).WF 1 := by
    constructor
    · simp [NumberOfRecordsPerLBAShard]
    · intro r hr
      have := List.eq_of_mem_replicate hr
      simp [this]
  exact ⟨hWF, (shard_write_roundtrip 1 ⟨List.replicate 128 [5], true⟩ hWF).2⟩

/-- C9: NewLBA fails with InvalidProvider exactly when the provider is absent,
and otherwise allocates exactly `⌈blockCount / 128⌉` per-shard mutexes, with
`NumberOfRecordsPerLBAShard = 128`. -/
theorem newLBA_provider_check_and_mux_count (v : String) (bc cl : Int)
    (hbc : 0 ≤ bc) :
    NewLBA v bc cl false = .error .invalidProvider ∧
    (∀ pr : Bool, (∃ e, NewLBA v bc cl pr = .error e) ↔ pr = false) ∧
    (∃ st : LbaState, NewLBA v bc cl true = .ok st ∧
      st.muxCount = Int.tdiv (bc + 127) (NumberOfRecordsPerLBAShard : Int)) ∧
    NumberOfRecordsPerLBAShard = 128 := by
  refine ⟨rfl, ?_, ?_, rfl⟩
  · intro pr
    cases pr with
    | false => simp [NewLBA]
    | true => simp [NewLBA]
  · refine ⟨_, rfl, ?_⟩
    show (if Int.tmod bc (NumberOfRecordsPerLBAShard : Int) > 0 then
        Int.tdiv bc (NumberOfRecordsPerLBAShard : Int) + 1
      else Int.tdiv bc (NumberOfRecordsPerLBAShard : Int)) =
      Int.tdiv (bc + 127) (NumberOfRecordsPerLBAShard : Int)
    have h128 : ((NumberOfRecordsPerLBAShard : Nat) : Int) = 128 := by
      norm_num [NumberOfRecordsPerLBAShard]
    rw [h128]
    exact tdiv_bump_eq_ceil bc hbc

/-- C9 witness: 129 blocks need 2 mutexes, and a nil provider is rejected. -/
theorem newLBA_provider_check_and_mux_count_witness :
    (0 : Int) ≤ 129 ∧
    NewLBA "vd" 129 64 false = .error .invalidProvider ∧
    (∃ st : LbaState, NewLBA "vd" 129 64 true = .ok st ∧
      st.muxCount = Int.tdiv ((129 : Int) + 127) (NumberOfRecordsPerLBAShard : Int)) := by
  have h := newLBA_provider_check_and_mux_count "vd" 129 64 (by norm_num)
  exact ⟨by norm_num, h.1, h.2.2.1⟩

/-- On a cache miss with the connection acquired, getShard always issues the
external GetField, whatever the store replies. -/
theorem getShard_miss_fetches (hlen : Nat) (c : Cache)
    (r : Except Err (Option (List Nat))) (i : Int) (hc : cacheGet c i = none) :
    Ev.extGetField i ∈ (getShard hlen c none r i).2.2 := by
  cases r with
  | error e => simp [getShard, hc, getShardFromExternalStorage]
  | ok o =>
    cases o with
    | none => simp [getShard, hc, getShardFromExternalStorage]
    | some bs =>
      rcases hb : shardFromBytes hlen bs with e | s <;>
        simp [getShard, hc, getShardFromExternalStorage, hb]

/-- C4: when the shard of a block index is absent from the cache and the
external store's GetField returns absent, Get returns the nil hash with no
error, and the absence is not treated as an error (the cache is also left as
it was). -/
theorem get_absent_returns_nilhash (hlen : Nat) (c : Cache) (bi : Int)
    (hc : cacheGet c (Int.tdiv bi (NumberOfRecordsPerLBAShard : Int)) = none) :
    (getOp hlen c none (.ok none) bi).1 = .ok [] ∧
    (getOp hlen c none (.ok none) bi).2.1 = c ∧
    Hash.isNil hlen [] := by
  have hg : getShard hlen c none (.ok none)
      (Int.tdiv bi (NumberOfRecordsPerLBAShard : Int)) =
      (.ok none, c,
        [Ev.cacheLookup (Int.tdiv bi (NumberOfRecordsPerLBAShard : Int)),
         Ev.extGetField (Int.tdiv bi (NumberOfRecordsPerLBAShard : Int))]) := by
    simp [getShard, hc, getShardFromExternalStorage]
  refine ⟨?_, ?_, Or.inl rfl⟩ <;> simp [getOp, hg]

/-- C4 witness: the empty cache and an absent external field at block 0. -/
theorem get_absent_returns_nilhash_witness :
    cacheGet ([] : Cache) (Int.tdiv 0 (NumberOfRecordsPerLBAShard : Int)) = none ∧
    (getOp 1 [] none (.ok none) 0).1 = .ok [] ∧
    (getOp 1 [] none (.ok none) 0).2.1 = ([] : Cache) := by
  have h := get_absent_returns_nilhash 1 [] 0 (by rfl)
  exact ⟨rfl, h.1, h.2.1⟩

/-- C10: when a shard is absent from the cache and the external fetch returns
absent, getShard leaves the cache unchanged (the absent shard is not inserted,
no negative caching), and every subsequent getShard, Get or Set reaching that
still-absent shard issues a new external GetField. -/
theorem getShard_absent_no_negative_caching (hlen : Nat) (c : Cache) (i : Int)
    (hc : cacheGet c i = none) :
    getShard hlen c none (.ok none) i =
      (.ok none, c, [Ev.cacheLookup i, Ev.extGetField i]) ∧
    (∀ r : Except Err (Option (List Nat)),
      Ev.extGetField i ∈
        (getShard hlen ((getShard hlen c none (.ok none) i).2.1) none r i).2.2) ∧
    (∀ (r : Except Err (Option (List Nat))) (bi : Int),
      Int.tdiv bi (NumberOfRecordsPerLBAShard : Int) = i →
      Ev.extGetField i ∈ (getOp hlen c none r bi).2.2) ∧
    (∀ (r : Except Err (Option (List Nat))) (bi : Int) (h : Hash),
      Int.tdiv bi (NumberOfRecordsPerLBAShard : Int) = i →
      Ev.extGetField i ∈ (setOp hlen c none r bi h).2.2) := by
  have hfirst : getShard hlen c none (.ok none) i =
      (.ok none, c, [Ev.cacheLookup i, Ev.extGetField i]) := by
    simp [getShard, hc, getShardFromExternalStorage]
  refine ⟨hfirst, ?_, ?_, ?_⟩
  · intro r
    rw [hfirst]
    exact getShard_miss_fetches hlen c r i hc
  · intro r bi hbi
    have hm := getShard_miss_fetches hlen c r i hc
    rcases hg : getShard hlen c none r i with ⟨res, c1, evs⟩
    rw [hg] at hm
    simp only at hm
    cases res with
    | error e => simp [getOp, hbi, hg, hm]
    | ok o =>
      cases o with
      | none => simp [getOp, hbi, hg, hm]
      | some s => simp [getOp, hbi, hg, hm]
  · intro r bi h hbi
    have hm := getShard_miss_fetches hlen c r i hc
    rcases hg : getShard hlen c none r i with ⟨res, c1, evs⟩
    rw [hg] at hm
    simp only at hm
    cases res with
    | error e => simp [setOp, hbi, hg, hm]
    | ok o =>
      cases o with
      | none => simp [setOp, hbi, hg, hm]
      | some s => simp [setOp, hbi, hg, hm]

/-- C10 witness: the empty cache misses shard index 0, does not cache the
absent shard, and refetches on the next lookup. -/
theorem getShard_absent_no_negative_caching_witness :
    cacheGet ([] : Cache) 0 = none ∧
    getShard 1 [] none (.ok none) 0 =
      (.ok none, ([] : Cache), [Ev.cacheLookup 0, Ev.extGetField 0]) ∧
    Ev.extGetField 0 ∈
      (getShard 1 ((getShard 1 [] none (.ok none) 0).2.1) none (.ok none) 0).2.2 := by
  have h := getShard_absent_no_negative_caching 1 [] 0 (by rfl)
  exact ⟨rfl, h.1, h.2.1 (.ok none)⟩

set_option maxRecDepth 4096 in
/-- C1 evidence: in the source, the Flush body clears the cache exactly when
EXEC returned an error and leaves it fully populated when EXEC succeeded — the
inverse of the claimed behavior (the error is still returned on failure). -/
theorem flush_clears_cache_only_on_failed_exec :
    (storeCacheInExternalStorage "vd" [(0, some ⟨List.replicate 128 [1], true⟩)]
        ⟨none, none, some [1], none⟩).1 = none ∧
    (storeCacheInExternalStorage "vd" [(0, some ⟨List.replicate 128 [1], true⟩)]
        ⟨none, none, some [1], none⟩).2.1 =
      [(0, some ⟨List.replicate 128 [1], true⟩)] ∧
    ([(0, some ⟨List.replicate 128 [1], true⟩)] : Cache) ≠ [] ∧
    (storeCacheInExternalStorage "vd" [(0, some ⟨List.replicate 128 [1], true⟩)]
        ⟨none, none, none, some (.ioErr 7)⟩).1 = some (.ioErr 7) ∧
    (storeCacheInExternalStorage "vd" [(0, some ⟨List.replicate 128 [1], true⟩)]
        ⟨none, none, none, some (.ioErr 7)⟩).2.1 = [] := by
  refine ⟨rfl, rfl, by simp, rfl, rfl⟩

set_option maxRecDepth 4096 in
/-- C2 evidence: in the source, storing a single dirty shard leaves the dirty
bit set when the HSET succeeded and calls UnsetDirty exactly when the HSET
returned an error (which is still propagated) — the inverse of the claimed
behavior. -/
theorem storeShard_unsets_dirty_only_on_failed_hset :
    ((storeShardInExternalStorage "vd" 0 ⟨List.replicate 128 [1], true⟩
        none none).1).dirty = true ∧
    (storeShardInExternalStorage "vd" 0 ⟨List.replicate 128 [1], true⟩
        none none).2.1 = none ∧
    ((storeShardInExternalStorage "vd" 0 ⟨List.replicate 128 [1], true⟩
        none (some (.ioErr 3))).1).dirty = false ∧
    (storeShardInExternalStorage "vd" 0 ⟨List.replicate 128 [1], true⟩
        none (some (.ioErr 3))).2.1 = some (.ioErr 3) := by
  refine ⟨rfl, rfl, rfl, rfl⟩

/-- C3 evidence: invoking the eviction callback on a tombstone entry
dereferences the nil shard through `shard.Dirty()` before the nil test is
reached, so it panics and no HDEL is ever issued; the standalone delete helper
(which the dead tombstone branch would call) does issue the HDEL and merely
returns the error for logging. -/
theorem eviction_tombstone_nil_deref :
    onCacheEviction "vd" 0 none none none = (EvictOutcome.nilDeref, none, []) ∧
    Cmd.hdel "vd" 0 ∉ (onCacheEviction "vd" 0 none none none).2.2 ∧
    deleteShardFromExternalStorage "vd" 0 none none = (none, [Cmd.hdel "vd" 0]) ∧
    deleteShardFromExternalStorage "vd" 0 none (some (.ioErr 5)) =
      (some (.ioErr 5), [Cmd.hdel "vd" 0]) := by
  exact ⟨rfl, by simp [onCacheEviction], rfl, rfl⟩

/-- C5: a Flush that obtained its connection and opened the transaction sends,
on that single connection, exactly MULTI, then one command per serialized cache
entry — HSET for non-nil serialized bytes, HDEL for nil (tombstone) bytes —
then EXEC; every dirty live shard and every tombstone of the cache is emitted
inside the bracket. -/
theorem flush_single_tx_emits_hset_hdel (v : String) (c : Cache) (env : FlushEnv)
    (ha : env.acquireErr = none) (hm : env.multiErr = none) :
    (storeCacheInExternalStorage v c env).2.2 =
      Cmd.multi :: (serializeEntries c).map (emitCmd v) ++ [Cmd.exec] ∧
    (∀ i b, (i, some b) ∈ serializeEntries c → emitCmd v (i, some b) = Cmd.hset v i b) ∧
    (∀ i, (i, none) ∈ serializeEntries c → emitCmd v (i, none) = Cmd.hdel v i) ∧
    (∀ i s, (i, some s) ∈ c → s.dirty = true →
      Cmd.hset v i (shardWrite s) ∈ (storeCacheInExternalStorage v c env).2.2) ∧
    (∀ i, (i, none) ∈ c → Cmd.hdel v i ∈ (storeCacheInExternalStorage v c env).2.2) := by
  have hcmds : (storeCacheInExternalStorage v c env).2.2 =
      Cmd.multi :: (serializeEntries c).map (emitCmd v) ++ [Cmd.exec] := by
    rcases env with ⟨a, m, r, e⟩
    cases a with
    | some x => simp at ha
    | none =>
      cases m with
      | some x => simp at hm
      | none => cases e <;> rfl
  refine ⟨hcmds, fun i b _ => rfl, fun i _ => rfl, ?_, ?_⟩
  · intro i s hmem hd
    rw [hcmds]
    have h1 : (i, some (shardWrite s)) ∈ serializeEntries c :=
      List.mem_filterMap.mpr ⟨(i, some s), hmem, by simp [hd]⟩
    have h2 : Cmd.hset v i (shardWrite s) ∈ (serializeEntries c).map (emitCmd v) :=
      List.mem_map.mpr ⟨(i, some (shardWrite s)), h1, rfl⟩
    simp [h2]
  · intro i hmem
    rw [hcmds]
    have h1 : (i, (none : Option (List Nat))) ∈ serializeEntries c :=
      List.mem_filterMap.mpr ⟨(i, none), hmem, rfl⟩
    have h2 : Cmd.hdel v i ∈ (serializeEntries c).map (emitCmd v) :=
      List.mem_map.mpr ⟨(i, none), h1, rfl⟩
    simp [h2]

/-- C5 witness: a cache holding one tombstone and one dirty shard, flushed with
a healthy connection. -/
theorem flush_single_tx_emits_hset_hdel_witness :
    (⟨none, none, some [1], none⟩ : FlushEnv).acquireErr = none ∧
    (storeCacheInExternalStorage "vd" [(0, none)] ⟨none, none, some [1], none⟩).2.2 =
      Cmd.multi :: (serializeEntries [(0, none)]).map (emitCmd "vd") ++ [Cmd.exec] ∧
    Cmd.hdel "vd" 0 ∈
      (storeCacheInExternalStorage "vd" [(0, none)] ⟨none, none, some [1], none⟩).2.2 := by
  have h := flush_single_tx_emits_hset_hdel "vd" [(0, none)]
    ⟨none, none, some [1], none⟩ rfl rfl
  exact ⟨rfl, h.1, h.2.2.2.2 0 (by simp)⟩

/-- C6 counterexample: an EXEC acknowledged by an empty reply with no error
(the empty-transaction acknowledgement) makes the source's Flush body return
success, not a TxAborted failure — the source discards the EXEC reply and looks
only at the error. -/
theorem flush_ignores_empty_exec_reply_cex :
    (⟨none, none, some [], none⟩ : FlushEnv).execReply = some [] ∧
    (⟨none, none, some [], none⟩ : FlushEnv).execErr = none ∧
    (storeCacheInExternalStorage "vd" [] ⟨none, none, some [], none⟩).1 = none := by
  exact ⟨rfl, rfl, rfl⟩

/-- C6 amended: once the connection is acquired and MULTI sent, Flush's
returned error is exactly the error of `Do("EXEC")`; the EXEC reply value is
ignored, so a negative error-reply fails the Flush but an empty or nil
acknowledgement without an error is treated as success. -/
theorem flush_error_eq_exec_error (v : String) (c : Cache) (env : FlushEnv)
    (ha : env.acquireErr = none) (hm : env.multiErr = none) :
    (storeCacheInExternalStorage v c env).1 = env.execErr := by
  rcases env with ⟨a, m, r, e⟩
  cases a with
  | some x => simp at ha
  | none =>
    cases m with
    | some x => simp at hm
    | none => cases e <;> rfl

/-- C6 amended witness: a failing EXEC propagates its error, whatever the
reply. -/
theorem flush_error_eq_exec_error_witness :
    (⟨none, none, some [7], some (Err.ioErr 9)⟩ : FlushEnv).acquireErr = none ∧
    (storeCacheInExternalStorage "vd" [] ⟨none, none, some [7], some (.ioErr 9)⟩).1 =
      (⟨none, none, some [7], some (Err.ioErr 9)⟩ : FlushEnv).execErr := by
  exact ⟨rfl, flush_error_eq_exec_error "vd" [] ⟨none, none, some [7], some (.ioErr 9)⟩ rfl rfl⟩

/-- Decides whether, in an event trace, the `shard.Set` mutation of shard `si`,
slot `hi`, happens while `shardMux[si]` is held: the first lock of `si` must
precede the mutation and the mutation must precede the first unlock of `si`. -/
def mutationUnderLock (evs : List Ev) (si hi : Int) : Bool :=
  match evs.findIdx? (fun e => e == Ev.lock si),
      evs.findIdx? (fun e => e == Ev.shardSet si hi),
      evs.findIdx? (fun e => e == Ev.unlock si) with
  | some jl, some js, some ju => decide (jl < js) && decide (js < ju)
  | _, _, _ => false

/-- Every event produced by getShard is a cache lookup, the external GetField,
or a cache insert for the requested index, and the cache lookup is always
present. -/
theorem getShard_events_shape (hlen : Nat) (c : Cache) (ae : Option Err)
    (r : Except Err (Option (List Nat))) (i : Int) :
    Ev.cacheLookup i ∈ (getShard hlen c ae r i).2.2 ∧
    ∀ e ∈ (getShard hlen c ae r i).2.2,
      e = Ev.cacheLookup i ∨ e = Ev.extGetField i ∨ e = Ev.cacheAdd i := by
  rcases hcg : cacheGet c i with _ | entry
  · cases ae with
    | some x => simp [getShard, hcg, getShardFromExternalStorage]
    | none =>
      cases r with
      | error e => simp [getShard, hcg, getShardFromExternalStorage]
      | ok o =>
        cases o with
        | none => simp [getShard, hcg, getShardFromExternalStorage]
        | some bs =>
          rcases hb : shardFromBytes hlen bs with e | s <;>
            simp [getShard, hcg, getShardFromExternalStorage, hb]
  · simp [getShard, hcg]

set_option maxRecDepth 4096 in
/-- C7 counterexample: at block index 0 on an empty cache with an absent
external shard, Set's event trace is lock, lookup, fetch, insert, unlock, and
only then the `shard.Set` mutation — the mutation is not performed under
`shardMux[si]`, refuting the claimed step order at this concrete input. -/
theorem set_mutation_not_under_lock_cex :
    (setOp 1 [] none (.ok none) 0 [7]).1 = none ∧
    (setOp 1 [] none (.ok none) 0 [7]).2.2 =
      [Ev.lock 0, Ev.cacheLookup 0, Ev.extGetField 0, Ev.cacheAdd 0, Ev.unlock 0,
       Ev.shardSet 0 0] ∧
    mutationUnderLock ((setOp 1 [] none (.ok none) 0 [7]).2.2) 0 0 = false := by
  refine ⟨rfl, rfl, rfl⟩

/-- C7 amended: every successful Set acquires `shardMux[si]`, performs the
cache lookup (and any fetch/insert) under the lock, releases the lock, and only
after the release performs the `shard.Set(hi, hash)` mutation: the trace is
`lock si :: mid ++ [unlock si, shardSet si hi]` where `mid` holds the lookup
and contains no unlock and no mutation. -/
theorem set_lookup_under_lock_mutation_after (hlen : Nat) (c : Cache)
    (ae : Option Err) (r : Except Err (Option (List Nat))) (bi : Int) (h : Hash)
    (hok : (setOp hlen c ae r bi h).1 = none) :
    ∃ mid, (setOp hlen c ae r bi h).2.2 =
        Ev.lock (Int.tdiv bi (NumberOfRecordsPerLBAShard : Int)) :: mid ++
          [Ev.unlock (Int.tdiv bi (NumberOfRecordsPerLBAShard : Int)),
           Ev.shardSet (Int.tdiv bi (NumberOfRecordsPerLBAShard : Int))
             (Int.tmod bi (NumberOfRecordsPerLBAShard : Int))] ∧
      Ev.cacheLookup (Int.tdiv bi (NumberOfRecordsPerLBAShard : Int)) ∈ mid ∧
      (∀ j : Int, Ev.unlock j ∉ mid) ∧
      (∀ j k : Int, Ev.shardSet j k ∉ mid) := by
  have hshape := getShard_events_shape hlen c ae r
    (Int.tdiv bi (NumberOfRecordsPerLBAShard : Int))
  rcases hg : getShard hlen c ae r (Int.tdiv bi (NumberOfRecordsPerLBAShard : Int))
    with ⟨res, c1, evs⟩
  rw [hg] at hshape
  simp only at hshape
  cases res with
  | error e => simp [setOp, hg] at hok
  | ok entry =>
    refine ⟨evs ++ (if entry.isNone then
      [Ev.cacheAdd (Int.tdiv bi (NumberOfRecordsPerLBAShard : Int))] else []),
      ?_, ?_, ?_, ?_⟩
    · simp [setOp, hg]
    · exact List.mem_append_left _ hshape.1
    · intro j hmem
      rcases List.mem_append.mp hmem with hin | hin
      · rcases hshape.2 _ hin with h1 | h1 | h1 <;> simp at h1
      · rcases hite : entry.isNone with _ | _ <;> rw [hite] at hin <;> simp at hin
    · intro j k hmem
      rcases List.mem_append.mp hmem with hin | hin
      · rcases hshape.2 _ hin with h1 | h1 | h1 <;> simp at h1
      · rcases hite : entry.isNone with _ | _ <;> rw [hite] at hin <;> simp at hin

set_option maxRecDepth 4096 in
/-- C7 amended witness: the lock/lookup/unlock/mutation shape at block 0 on the
empty cache. -/
theorem set_lookup_under_lock_mutation_after_witness :
    (setOp 1 [] none (.ok none) 0 [7]).1 = none ∧
    (∃ mid, (setOp 1 [] none (.ok none) 0 [7]).2.2 =
        Ev.lock (Int.tdiv 0 (NumberOfRecordsPerLBAShard : Int)) :: mid ++
          [Ev.unlock (Int.tdiv 0 (NumberOfRecordsPerLBAShard : Int)),
           Ev.shardSet (Int.tdiv 0 (NumberOfRecordsPerLBAShard : Int))
             (Int.tmod 0 (NumberOfRecordsPerLBAShard : Int))] ∧
      Ev.cacheLookup (Int.tdiv 0 (NumberOfRecordsPerLBAShard : Int)) ∈ mid ∧
      (∀ j : Int, Ev.unlock j ∉ mid) ∧
      (∀ j k : Int, Ev.shardSet j k ∉ mid)) := by
  exact ⟨rfl, set_lookup_under_lock_mutation_after 1 [] none (.ok none) 0 [7] rfl⟩

end ZeroDiskLBA
